import Mathlib

/-!
A shallow embedding of the ceph-ansible-copilot sources
(`ceph_ansible_copilot/ansible/playbook.py` and
`ceph_ansible_copilot/utils/utils.py`) together with proofs about the
result-aggregation callback and the host utilities.

Modelling conventions: Python dictionaries become association lists with
unique keys, Python floats become exact rationals, Python strings become
`String` or `List Char` (for the character-level slicing done by
`expand_hosts`), and Python exceptions become `Except` results.
-/

/-! ### Association-list model of Python dictionaries -/

/-- `d[k]` lookup on a Python dictionary, `none` when the key is absent. -/
def dictGet {κ α : Type} [DecidableEq κ] (d : List (κ × α)) (k : κ) : Option α :=
  match d with
  | [] => none
  | (k1, v) :: rest => if k1 = k then some v else dictGet rest k

/-- `d[k] = v` assignment on a Python dictionary: replaces the binding if
the key is present, otherwise appends it. -/
def dictSet {κ α : Type} [DecidableEq κ] (d : List (κ × α)) (k : κ) (v : α) :
    List (κ × α) :=
  match d with
  | [] => [(k, v)]
  | (k1, v1) :: rest => if k1 = k then (k, v) :: rest else (k1, v1) :: dictSet rest k v

/-- `del d[k]` on a Python dictionary. -/
def dictErase {κ α : Type} [DecidableEq κ] (d : List (κ × α)) (k : κ) :
    List (κ × α) :=
  match d with
  | [] => []
  | (k1, v1) :: rest => if k1 = k then dictErase rest k else (k1, v1) :: dictErase rest k

theorem dictGet_set_eq {κ α : Type} [DecidableEq κ] (d : List (κ × α)) (k : κ) (v : α) :
    dictGet (dictSet d k v) k = some v := by
  induction d with
  | nil => simp [dictGet, dictSet]
  | cons hd tl ih =>
    obtain ⟨k1, v1⟩ := hd
    by_cases h : k1 = k
    · simp [dictGet, dictSet, h]
    · simp [dictGet, dictSet, h, ih]

theorem dictGet_set_ne {κ α : Type} [DecidableEq κ] (d : List (κ × α)) (k k' : κ) (v : α)
    (h : k' ≠ k) : dictGet (dictSet d k v) k' = dictGet d k' := by
  have hk : ¬ k = k' := fun hh => h hh.symm
  induction d with
  | nil => simp [dictGet, dictSet, hk]
  | cons hd tl ih =>
    obtain ⟨k1, v1⟩ := hd
    by_cases h1 : k1 = k
    · subst h1
      simp [dictGet, dictSet, hk]
    · simp [dictGet, dictSet, h1, ih]

theorem dictGet_erase_eq {κ α : Type} [DecidableEq κ] (d : List (κ × α)) (k : κ) :
    dictGet (dictErase d k) k = none := by
  induction d with
  | nil => simp [dictGet, dictErase]
  | cons hd tl ih =>
    obtain ⟨k1, v1⟩ := hd
    by_cases h : k1 = k
    · simp [dictErase, h, ih]
    · simp [dictErase, dictGet, h, ih]

theorem dictGet_erase_ne {κ α : Type} [DecidableEq κ] (d : List (κ × α)) (k k' : κ)
    (h : k' ≠ k) : dictGet (dictErase d k) k' = dictGet d k' := by
  have hk : ¬ k = k' := fun hh => h hh.symm
  induction d with
  | nil => simp [dictGet, dictErase]
  | cons hd tl ih =>
    obtain ⟨k1, v1⟩ := hd
    by_cases h1 : k1 = k
    · subst h1
      simp [dictErase, dictGet, hk, ih]
    · simp [dictErase, dictGet, h1, ih]

/-- Left-biased choice on `Option`, used to state "latest event wins". -/
def optOr {α : Type} : Option α → Option α → Option α
  | some a, _ => some a
  | none, o => o

theorem optOr_none_right {α : Type} (o : Option α) : optOr o none = o := by
  cases o <;> rfl

theorem optOr_assoc {α : Type} (a b c : Option α) :
    optOr (optOr a b) c = optOr a (optOr b c) := by
  cases a <;> cases b <;> rfl

/-! ### Python values

Only as much of Python's value universe as the code under study inspects:
truthiness and `isinstance(_, list)`. -/

/-- A Python value as far as the studied code looks at one. -/
inductive PyVal where
  | pyNone : PyVal
  | pyBool : Bool → PyVal
  | pyInt : ℤ → PyVal
  | pyStr : String → PyVal
  | pyList : List PyVal → PyVal

/-- Python truthiness: `None`, `False`, `0`, `""` and `[]` are falsy. -/
def truthy : PyVal → Bool
  | .pyNone => false
  | .pyBool b => b
  | .pyInt n => decide (n ≠ 0)
  | .pyStr s => !s.isEmpty
  | .pyList xs => !xs.isEmpty

/-- `isinstance(v, list)`. -/
def isList : PyVal → Bool
  | .pyList _ => true
  | _ => false

/-- The underlying list of a `pyList`, `[]` otherwise (only consulted on
branches where `isList` already holds). -/
def getList : PyVal → List PyVal
  | .pyList xs => xs
  | _ => []

/-- A raw Ansible result payload (`result._result`): a Python dictionary
from string keys to values. -/
abbrev PyDict := List (String × PyVal)

/-! ### `ResultCallback` (`ansible/playbook.py`)

The callback object's mutable `self.stats` dictionary is modelled as the
`Stats` record; each `v2_*` entry point becomes one case of a step
function over it.  `_handle_warnings` is modelled together with its
raise path: its logging loops can raise (`self.logger.warning(warning)`
on a `None` logger, `self.logger.warning(**warning)` on a non-mapping
element, iteration over a non-iterable), and a raise aborts the calling
handler before any store or counter increment (the engine swallows the
exception, so the net effect on `stats` is none). -/

/-- The exceptions `_handle_warnings` can raise. -/
inductive PyExn where
  | typeError : PyExn
  | attributeError : PyExn
deriving DecidableEq

/-- Whether `for x in v` can iterate the value: strings and lists can,
`None`, booleans and integers raise `TypeError`. -/
def iterable : PyVal → Bool
  | .pyStr _ => true
  | .pyList _ => true
  | _ => false

/-- Outcome of `for warning in v: self.logger.warning(warning)` for a
truthy `v` (the body then runs at least once): iterating a non-iterable
raises `TypeError`; with no logger the attribute access on `None`
raises `AttributeError`; otherwise every element is accepted as the
message argument and the loop completes. -/
def warnLoopExn (hasLogger : Bool) (v : PyVal) : Option PyExn :=
  if iterable v = false then some .typeError
  else if hasLogger = false then some .attributeError
  else none

/-- Outcome of `for warning in v: self.logger.warning(**warning)` for a
truthy `v`: iterating a non-iterable raises `TypeError`; with no logger
the attribute access raises `AttributeError`; otherwise the `**`
unpacking needs each element to be a mapping, which no value of the
model's universe is (and even Ansible's deprecation dictionaries carry
keys such as `version` that `Logger.warning` rejects), so the first
element raises `TypeError`. -/
def depLoopExn (hasLogger : Bool) (v : PyVal) : Option PyExn :=
  if iterable v = false then some .typeError
  else if hasLogger = false then some .attributeError
  else some .typeError

/-- The `deprecations` branch of `_handle_warnings`.  The delete arm is
kept for structural fidelity to the source but is unreachable, because
`depLoopExn` always raises on a truthy value. -/
def depBranch (hasLogger : Bool) (res : PyDict) : PyDict × Option PyExn :=
  match dictGet res "deprecations" with
  | some v =>
    if truthy v = true then
      match depLoopExn hasLogger v with
      | some e => (res, some e)
      | none => (dictErase res "deprecations", none)
    else (res, none)
  | none => (res, none)

/-- `ResultCallback._handle_warnings`: the payload as the in-place
mutation left it, paired with the exception that aborted the handler,
if any.  A raise in the `warnings` loop keeps both keys; a completed
`warnings` branch deletes that key before the `deprecations` branch
runs (and possibly raises). -/
def handle_warnings (hasLogger : Bool) (res : PyDict) : PyDict × Option PyExn :=
  match dictGet res "warnings" with
  | some v =>
    if truthy v = true then
      match warnLoopExn hasLogger v with
      | some e => (res, some e)
      | none => depBranch hasLogger (dictErase res "warnings")
    else depBranch hasLogger res
  | none => depBranch hasLogger res

/-- Whether `_handle_warnings` raises on this payload. -/
def hwRaises (hasLogger : Bool) (res : PyDict) : Bool :=
  ((handle_warnings hasLogger res).2).isSome

/-- The `self.stats` structure of `ResultCallback`: the four
`task_state` counters, the `failures` and `successes` per-host maps and
the current `task_name`. -/
structure Stats where
  success : ℕ
  failed : ℕ
  skipped : ℕ
  unreachable : ℕ
  failures : List (String × List PyDict)
  successes : List (String × PyDict)
  task_name : String

/-- `self.stats` as initialised in `ResultCallback.__init__`. -/
def initStats : Stats :=
  { success := 0, failed := 0, skipped := 0, unreachable := 0,
    failures := [], successes := [], task_name := "" }

/-- The five event kinds delivered by the engine to the callback, each
carrying the host name and raw result payload the handler reads. -/
inductive Event where
  | taskStart : String → Event
  | runnerOk : String → PyDict → Event
  | runnerFailed : String → PyDict → Event
  | runnerUnreachable : String → PyDict → Event
  | runnerSkipped : String → PyDict → Event

/-- `true` for the four per-host runner events, `false` for task-start. -/
def Event.perHost : Event → Bool
  | .taskStart _ => false
  | _ => true

/-- Whether the event's handler runs to completion: per-host handlers
abort when `_handle_warnings` raises on their payload. -/
def Event.completes (hasLogger : Bool) : Event → Bool
  | .taskStart _ => true
  | .runnerOk _ res => !(hwRaises hasLogger res)
  | .runnerFailed _ res => !(hwRaises hasLogger res)
  | .runnerUnreachable _ res => !(hwRaises hasLogger res)
  | .runnerSkipped _ res => !(hwRaises hasLogger res)

/-- One event delivered to `ResultCallback`.  `hasCallout` models
whether a `pb_callout` notification function was supplied and
`hasLogger` whether a logger was; the second component collects the
stats snapshots passed to the callout.  When `_handle_warnings` raises,
the handler aborts before any store, increment or callout — the
engine's dispatch swallows the exception, so `stats` is unchanged. -/
def ResultCallback.handle (hasCallout hasLogger : Bool) (s : Stats) (e : Event) :
    Stats × List Stats :=
  match e with
  | .taskStart name =>
      -- playbook_on_task_start: records the name; `if self.pb_callout: pass`
      ({ s with task_name := name }, [])
  | .runnerOk host res =>
      match (handle_warnings hasLogger res).2 with
      | some _ => (s, [])
      | none =>
        let res2 := (handle_warnings hasLogger res).1
        let s1 := { s with successes := dictSet s.successes host res2 }
        let s2 := { s1 with success := s1.success + 1 }
        (s2, if hasCallout then [s2] else [])
  | .runnerFailed host res =>
      match (handle_warnings hasLogger res).2 with
      | some _ => (s, [])
      | none =>
        let res2 := (handle_warnings hasLogger res).1
        let s1 := { s with failures :=
          (match dictGet s.failures host with
           | some l => dictSet s.failures host (l ++ [res2])
           | none => dictSet s.failures host [res2]) }
        let s2 := { s1 with failed := s1.failed + 1 }
        (s2, if hasCallout then [s2] else [])
  | .runnerUnreachable _ res =>
      match (handle_warnings hasLogger res).2 with
      | some _ => (s, [])
      | none =>
        let s2 := { s with unreachable := s.unreachable + 1 }
        (s2, if hasCallout then [s2] else [])
  | .runnerSkipped _ res =>
      match (handle_warnings hasLogger res).2 with
      | some _ => (s, [])
      | none =>
        let s2 := { s with skipped := s.skipped + 1 }
        (s2, if hasCallout then [s2] else [])

/-- Deliver a list of events, in order, to the callback's stats. -/
def runFrom (hasCallout hasLogger : Bool) (s : Stats) : List Event → Stats
  | [] => s
  | e :: rest =>
    runFrom hasCallout hasLogger (ResultCallback.handle hasCallout hasLogger s e).1 rest

/-- The sum of the four `task_state` counters. -/
def sumTaskState (s : Stats) : ℕ :=
  s.success + s.failed + s.skipped + s.unreachable

/-! ### Specification functions for the aggregation claims -/

/-- The payload an ok event for host `h` would store (after a completed
warning stripping), `none` for any other event and for an ok event
whose warning handling raises. -/
def okPayload (hasLogger : Bool) (h : String) : Event → Option PyDict
  | .runnerOk h2 res =>
    if h2 = h then
      (if hwRaises hasLogger res = true then none
       else some (handle_warnings hasLogger res).1)
    else none
  | _ => none

/-- The payload of the latest completed ok event for `h` in the list
(later events override earlier ones). -/
def lastOk (hasLogger : Bool) (h : String) : List Event → Option PyDict
  | [] => none
  | e :: rest => optOr (lastOk hasLogger h rest) (okPayload hasLogger h e)

/-- The payload a completed failed event for host `h` contributes, as a
zero-or-one element list. -/
def failedPayload (hasLogger : Bool) (h : String) : Event → List PyDict
  | .runnerFailed h2 res =>
    if h2 = h then
      (if hwRaises hasLogger res = true then []
       else [(handle_warnings hasLogger res).1])
    else []
  | _ => []

/-- All failure payloads stored for `h`, in delivery order. -/
def failPayloads (hasLogger : Bool) (h : String) : List Event → List PyDict
  | [] => []
  | e :: rest => failedPayload hasLogger h e ++ failPayloads hasLogger h rest

/-- Whether an event is a failed event for host `h` whose handler runs
to completion. -/
def Event.isFailedFor (hasLogger : Bool) (h : String) : Event → Bool
  | .runnerFailed h2 res => decide (h2 = h) && !(hwRaises hasLogger res)
  | _ => false

/-- The value a host's `failures` entry takes when the given payload
list has been accumulated: absent while no failure was seen, the list
itself afterwards (created on the first failure). -/
def optFails : List PyDict → Option (List PyDict)
  | [] => none
  | p :: ps => some (p :: ps)

/-- The exception the `warnings` loop raises on this payload, if any. -/
def warnExnOf (hasLogger : Bool) (res : PyDict) : Option PyExn :=
  match dictGet res "warnings" with
  | some v => if truthy v = true then warnLoopExn hasLogger v else none
  | none => none

/-- The exception the `deprecations` loop raises on this payload. -/
def depExnOf (hasLogger : Bool) (res : PyDict) : Option PyExn :=
  match dictGet res "deprecations" with
  | some v => if truthy v = true then depLoopExn hasLogger v else none
  | none => none

/-- The `warnings` entry after `_handle_warnings`: deleted exactly when
it was present with a truthy value on which the logging loop completes
(iterable value and a logger supplied); retained otherwise. -/
def warnKeyAfter (hasLogger : Bool) (res : PyDict) : Option PyVal :=
  match dictGet res "warnings" with
  | some v =>
    if truthy v = true ∧ warnLoopExn hasLogger v = none then none else some v
  | none => none

/-! ### Helper lemmas about single steps and runs -/

theorem depLoopExn_isSome (hl : Bool) (v : PyVal) : depLoopExn hl v ≠ none := by
  unfold depLoopExn
  split_ifs <;> simp

theorem depBranch_fst (hl : Bool) (res : PyDict) : (depBranch hl res).1 = res := by
  unfold depBranch
  cases hd : dictGet res "deprecations" with
  | none => rfl
  | some v =>
    by_cases ht : truthy v = true
    · simp only [ht, if_true]
      cases he : depLoopExn hl v with
      | none => exact absurd he (depLoopExn_isSome hl v)
      | some e => rfl
    · simp [ht]

theorem depBranch_snd (hl : Bool) (res : PyDict) :
    (depBranch hl res).2 = depExnOf hl res := by
  unfold depBranch depExnOf
  cases hd : dictGet res "deprecations" with
  | none => rfl
  | some v =>
    by_cases ht : truthy v = true
    · simp only [ht, if_true]
      cases he : depLoopExn hl v with
      | none => exact absurd he (depLoopExn_isSome hl v)
      | some e => simp [he]
    · simp [ht]

theorem depExnOf_erase_warnings (hl : Bool) (res : PyDict) :
    depExnOf hl (dictErase res "warnings") = depExnOf hl res := by
  unfold depExnOf
  rw [dictGet_erase_ne res "warnings" "deprecations" (by decide)]

theorem handle_perHost_counters (hc hl : Bool) (s : Stats) (e : Event)
    (he : e.perHost = true) :
    s.success ≤ ((ResultCallback.handle hc hl s e).1).success ∧
    s.failed ≤ ((ResultCallback.handle hc hl s e).1).failed ∧
    s.skipped ≤ ((ResultCallback.handle hc hl s e).1).skipped ∧
    s.unreachable ≤ ((ResultCallback.handle hc hl s e).1).unreachable ∧
    sumTaskState ((ResultCallback.handle hc hl s e).1)
      = sumTaskState s + (if Event.completes hl e = true then 1 else 0) := by
  cases e with
  | taskStart n => simp [Event.perHost] at he
  | runnerOk h2 r =>
    cases hexn : (handle_warnings hl r).2 with
    | some e0 =>
      have hcmp : Event.completes hl (Event.runnerOk h2 r) = false := by
        simp [Event.completes, hwRaises, hexn]
      simp [ResultCallback.handle, hexn, hcmp, sumTaskState]
    | none =>
      have hcmp : Event.completes hl (Event.runnerOk h2 r) = true := by
        simp [Event.completes, hwRaises, hexn]
      simp [ResultCallback.handle, hexn, hcmp, sumTaskState]
      omega
  | runnerFailed h2 r =>
    cases hexn : (handle_warnings hl r).2 with
    | some e0 =>
      have hcmp : Event.completes hl (Event.runnerFailed h2 r) = false := by
        simp [Event.completes, hwRaises, hexn]
      simp [ResultCallback.handle, hexn, hcmp, sumTaskState]
    | none =>
      have hcmp : Event.completes hl (Event.runnerFailed h2 r) = true := by
        simp [Event.completes, hwRaises, hexn]
      simp [ResultCallback.handle, hexn, hcmp, sumTaskState]
      omega
  | runnerUnreachable h2 r =>
    cases hexn : (handle_warnings hl r).2 with
    | some e0 =>
      have hcmp : Event.completes hl (Event.runnerUnreachable h2 r) = false := by
        simp [Event.completes, hwRaises, hexn]
      simp [ResultCallback.handle, hexn, hcmp, sumTaskState]
    | none =>
      have hcmp : Event.completes hl (Event.runnerUnreachable h2 r) = true := by
        simp [Event.completes, hwRaises, hexn]
      simp [ResultCallback.handle, hexn, hcmp, sumTaskState]
      omega
  | runnerSkipped h2 r =>
    cases hexn : (handle_warnings hl r).2 with
    | some e0 =>
      have hcmp : Event.completes hl (Event.runnerSkipped h2 r) = false := by
        simp [Event.completes, hwRaises, hexn]
      simp [ResultCallback.handle, hexn, hcmp, sumTaskState]
    | none =>
      have hcmp : Event.completes hl (Event.runnerSkipped h2 r) = true := by
        simp [Event.completes, hwRaises, hexn]
      simp [ResultCallback.handle, hexn, hcmp, sumTaskState]
      omega

theorem sumTaskState_runFrom (hc hl : Bool) :
    ∀ (evs : List Event) (s : Stats), (∀ e ∈ evs, e.perHost = true) →
      sumTaskState (runFrom hc hl s evs)
        = sumTaskState s + evs.countP (Event.completes hl) := by
  intro evs
  induction evs with
  | nil => intro s _; simp [runFrom]
  | cons e rest ih =>
    intro s hall
    have he : e.perHost = true := hall e (List.mem_cons_self e rest)
    rw [runFrom, ih _ (fun x hx => hall x (List.mem_cons_of_mem e hx)),
      (handle_perHost_counters hc hl s e he).2.2.2.2, List.countP_cons]
    by_cases hcmp : Event.completes hl e = true
    · simp [hcmp]
      omega
    · simp [hcmp]

theorem successes_step (hc hl : Bool) (s : Stats) (e : Event) (h : String) :
    dictGet ((ResultCallback.handle hc hl s e).1).successes h =
      optOr (okPayload hl h e) (dictGet s.successes h) := by
  cases e with
  | taskStart n => simp [ResultCallback.handle, okPayload, optOr]
  | runnerOk h2 res =>
    cases hexn : (handle_warnings hl res).2 with
    | some e0 =>
      have hr : hwRaises hl res = true := by simp [hwRaises, hexn]
      simp [ResultCallback.handle, hexn, okPayload, hr, optOr]
    | none =>
      have hr : hwRaises hl res = false := by simp [hwRaises, hexn]
      by_cases hh : h2 = h
      · subst hh
        simp [ResultCallback.handle, hexn, okPayload, hr, dictGet_set_eq, optOr]
      · simp [ResultCallback.handle, hexn, okPayload, hr, hh, optOr,
          dictGet_set_ne _ _ _ _ (fun h3 => hh h3.symm)]
  | runnerFailed h2 res =>
    cases hexn : (handle_warnings hl res).2 with
    | some e0 => simp [ResultCallback.handle, hexn, okPayload, optOr]
    | none => simp [ResultCallback.handle, hexn, okPayload, optOr]
  | runnerUnreachable h2 res =>
    cases hexn : (handle_warnings hl res).2 with
    | some e0 => simp [ResultCallback.handle, hexn, okPayload, optOr]
    | none => simp [ResultCallback.handle, hexn, okPayload, optOr]
  | runnerSkipped h2 res =>
    cases hexn : (handle_warnings hl res).2 with
    | some e0 => simp [ResultCallback.handle, hexn, okPayload, optOr]
    | none => simp [ResultCallback.handle, hexn, okPayload, optOr]

theorem successes_runFrom (hc hl : Bool) (h : String) :
    ∀ (evs : List Event) (s : Stats),
      dictGet (runFrom hc hl s evs).successes h =
        optOr (lastOk hl h evs) (dictGet s.successes h) := by
  intro evs
  induction evs with
  | nil => intro s; simp [runFrom, lastOk, optOr]
  | cons e rest ih =>
    intro s
    rw [runFrom, ih, successes_step, lastOk, optOr_assoc]

theorem failures_step (hc hl : Bool) (s : Stats) (e : Event) (h : String) :
    dictGet ((ResultCallback.handle hc hl s e).1).failures h =
      (match dictGet s.failures h with
       | some l => some (l ++ failedPayload hl h e)
       | none => optFails (failedPayload hl h e)) := by
  cases e with
  | taskStart n =>
    simp only [ResultCallback.handle, failedPayload]
    cases dictGet s.failures h <;> simp [optFails]
  | runnerOk h2 res =>
    cases hexn : (handle_warnings hl res).2 with
    | some e0 =>
      simp only [ResultCallback.handle, hexn, failedPayload]
      cases dictGet s.failures h <;> simp [optFails]
    | none =>
      simp only [ResultCallback.handle, hexn, failedPayload]
      cases dictGet s.failures h <;> simp [optFails]
  | runnerFailed h2 res =>
    cases hexn : (handle_warnings hl res).2 with
    | some e0 =>
      have hr : hwRaises hl res = true := by simp [hwRaises, hexn]
      simp only [ResultCallback.handle, hexn, failedPayload, hr, if_true]
      cases dictGet s.failures h <;> simp [optFails]
    | none =>
      have hr : hwRaises hl res = false := by simp [hwRaises, hexn]
      by_cases hh : h2 = h
      · subst hh
        simp only [ResultCallback.handle, hexn, failedPayload, hr, if_pos rfl,
          Bool.false_eq_true, if_false]
        cases hfd : dictGet s.failures h2 with
        | none => simp [hfd, dictGet_set_eq, optFails]
        | some l => simp [hfd, dictGet_set_eq, optFails]
      · have hne : h ≠ h2 := fun h3 => hh h3.symm
        simp only [ResultCallback.handle, hexn, failedPayload, if_neg hh]
        cases hfd : dictGet s.failures h2 with
        | none =>
          simp only [hfd]
          rw [dictGet_set_ne _ _ _ _ hne]
          cases dictGet s.failures h <;> simp [optFails]
        | some l =>
          simp only [hfd]
          rw [dictGet_set_ne _ _ _ _ hne]
          cases dictGet s.failures h <;> simp [optFails]
  | runnerUnreachable h2 res =>
    cases hexn : (handle_warnings hl res).2 with
    | some e0 =>
      simp only [ResultCallback.handle, hexn, failedPayload]
      cases dictGet s.failures h <;> simp [optFails]
    | none =>
      simp only [ResultCallback.handle, hexn, failedPayload]
      cases dictGet s.failures h <;> simp [optFails]
  | runnerSkipped h2 res =>
    cases hexn : (handle_warnings hl res).2 with
    | some e0 =>
      simp only [ResultCallback.handle, hexn, failedPayload]
      cases dictGet s.failures h <;> simp [optFails]
    | none =>
      simp only [ResultCallback.handle, hexn, failedPayload]
      cases dictGet s.failures h <;> simp [optFails]

theorem failures_runFrom (hc hl : Bool) (h : String) :
    ∀ (evs : List Event) (s : Stats),
      dictGet (runFrom hc hl s evs).failures h =
        (match dictGet s.failures h with
         | some l => some (l ++ failPayloads hl h evs)
         | none => optFails (failPayloads hl h evs)) := by
  intro evs
  induction evs with
  | nil =>
    intro s
    simp only [runFrom, failPayloads]
    cases dictGet s.failures h <;> simp [optFails]
  | cons e rest ih =>
    intro s
    rw [runFrom, ih, failures_step]
    cases hfd : dictGet s.failures h with
    | some l =>
      simp only [failPayloads]
      cases hfe : failedPayload hl h e <;> simp [optFails, List.append_assoc]
    | none =>
      simp only [failPayloads]
      cases hfe : failedPayload hl h e with
      | nil => simp [optFails]
      | cons p ps =>
        simp only [optFails]
        cases failPayloads hl h rest <;> simp [optFails]

theorem failPayloads_length (hl : Bool) (h : String) :
    ∀ evs : List Event,
      (failPayloads hl h evs).length = evs.countP (Event.isFailedFor hl h) := by
  intro evs
  induction evs with
  | nil => simp [failPayloads]
  | cons e rest ih =>
    rw [failPayloads, List.countP_cons]
    cases e with
    | runnerFailed h2 res =>
      by_cases hh : h2 = h
      · cases hr : hwRaises hl res with
        | false => simp [failedPayload, Event.isFailedFor, hh, hr, ih]
        | true => simp [failedPayload, Event.isFailedFor, hh, hr, ih]
      · simp [failedPayload, Event.isFailedFor, hh, ih]
    | taskStart n => simp [failedPayload, Event.isFailedFor, ih]
    | runnerOk h2 res => simp [failedPayload, Event.isFailedFor, ih]
    | runnerUnreachable h2 res => simp [failedPayload, Event.isFailedFor, ih]
    | runnerSkipped h2 res => simp [failedPayload, Event.isFailedFor, ih]

/-! ### Claim theorems about the aggregator -/

/-- C1 counterexample: one ok event whose payload carries a truthy
`deprecations` value makes `_handle_warnings` raise (`**`-unpacking a
non-mapping) before the success counter is incremented, so after this
one-event sequence the counter sum is 0, not 1 as the claim states. -/
theorem C1_counterexample :
    sumTaskState (runFrom true true initStats
        [Event.runnerOk "host1"
          [("deprecations", PyVal.pyList [PyVal.pyStr "dep"])]])
      ≠ [Event.runnerOk "host1"
          [("deprecations", PyVal.pyList [PyVal.pyStr "dep"])]].length := by
  decide

/-- C1 (amended): for every sequence of per-host events delivered to a
freshly constructed `ResultCallback`, the sum of the four `task_state`
counters equals the number of those events whose handler runs to
completion — an event on whose payload `_handle_warnings` raises aborts
before its increment and counts for nothing; every completing per-host
event increments exactly one counter by one, and no event ever
decrements a counter. -/
theorem C1_task_state_counters (hc hl : Bool) (evs : List Event)
    (hall : ∀ e ∈ evs, e.perHost = true) :
    sumTaskState (runFrom hc hl initStats evs)
      = evs.countP (Event.completes hl) ∧
    (∀ (s : Stats) (e : Event), e.perHost = true →
      s.success ≤ ((ResultCallback.handle hc hl s e).1).success ∧
      s.failed ≤ ((ResultCallback.handle hc hl s e).1).failed ∧
      s.skipped ≤ ((ResultCallback.handle hc hl s e).1).skipped ∧
      s.unreachable ≤ ((ResultCallback.handle hc hl s e).1).unreachable ∧
      sumTaskState ((ResultCallback.handle hc hl s e).1)
        = sumTaskState s + (if Event.completes hl e = true then 1 else 0)) := by
  refine ⟨?_, fun s e he => handle_perHost_counters hc hl s e he⟩
  rw [sumTaskState_runFrom hc hl evs initStats hall]
  simp [initStats, sumTaskState]

theorem C1_task_state_counters_witness :
    (∀ e ∈ [Event.runnerOk "h1" [], Event.runnerFailed "h1" [],
            Event.runnerSkipped "h2" [], Event.runnerUnreachable "h3" []],
        e.perHost = true) ∧
    sumTaskState (runFrom true true initStats
      [Event.runnerOk "h1" [], Event.runnerFailed "h1" [],
       Event.runnerSkipped "h2" [], Event.runnerUnreachable "h3" []]) = 4 :=
  ⟨by decide,
   by
    have h := (C1_task_state_counters true true
      [Event.runnerOk "h1" [], Event.runnerFailed "h1" [],
       Event.runnerSkipped "h2" [], Event.runnerUnreachable "h3" []]
      (by decide)).1
    rw [h]
    decide⟩

/-- C2 counterexample: after one ok event whose payload holds a truthy
`deprecations` value, `stats['successes']` has no entry for the host —
the handler raised inside `_handle_warnings` before the store — so the
entry does not equal the payload of the most recent ok event as the
claim states. -/
theorem C2_counterexample :
    dictGet (runFrom true true initStats
        [Event.runnerOk "host1"
          [("deprecations", PyVal.pyList [PyVal.pyStr "dep"])]]).successes
      "host1" = none := rfl

/-- C2 (amended): in one `ResultCallback` run, a host's `successes`
entry is exactly the (warning-stripped) payload of its most recent ok
event whose handler ran to completion — ok and failed events on whose
payload `_handle_warnings` raises store nothing — while its `failures`
entry is the list of the (warning-stripped) payloads of its completed
failed events in delivery order: created on the first such failure,
appended to thereafter, never overwritten, and of length equal to the
number of completed failed events for that host. -/
theorem C2_successes_failures (hc hl : Bool) (evs : List Event) (h : String) :
    dictGet (runFrom hc hl initStats evs).successes h = lastOk hl h evs ∧
    dictGet (runFrom hc hl initStats evs).failures h
      = optFails (failPayloads hl h evs) ∧
    (failPayloads hl h evs).length = evs.countP (Event.isFailedFor hl h) := by
  refine ⟨?_, ?_, failPayloads_length hl h evs⟩
  · rw [successes_runFrom hc hl h evs initStats]
    simp [initStats, dictGet, optOr_none_right]
  · rw [failures_runFrom hc hl h evs initStats]
    simp [initStats, dictGet]

/-- C9 counterexample: a payload carrying a `warnings` key whose value
is an empty (falsy) list passes through `_handle_warnings` unchanged
even with a logger supplied — the key is *not* removed, contradicting
the claim that the handlers always leave the payload free of it. -/
theorem C9_empty_warnings_kept :
    dictGet ((handle_warnings true [("warnings", PyVal.pyList [])]).1)
      "warnings" = some (PyVal.pyList []) := rfl

/-- C9 (amended): after `_handle_warnings`, every key other than
`warnings`/`deprecations` is unchanged; the `warnings` key is removed
exactly when it was present with a truthy, iterable value and a logger
was supplied (otherwise the logging loop raises first and the key is
retained); the `deprecations` key is never removed — a truthy value
always makes the loop raise before the delete (`TypeError` from the
`**`-unpacking of a non-mapping, or `TypeError`/`AttributeError` from a
non-iterable value or a missing logger); the raise, when any, is the
first loop's; and a payload with neither key passes through unchanged
with nothing raised. -/
theorem C9_handle_warnings_frame (hl : Bool) (res : PyDict) :
    (∀ k, k ≠ "warnings" → k ≠ "deprecations" →
       dictGet (handle_warnings hl res).1 k = dictGet res k) ∧
    dictGet (handle_warnings hl res).1 "warnings" = warnKeyAfter hl res ∧
    dictGet (handle_warnings hl res).1 "deprecations"
      = dictGet res "deprecations" ∧
    (handle_warnings hl res).2 = optOr (warnExnOf hl res) (depExnOf hl res) ∧
    (dictGet res "warnings" = none → dictGet res "deprecations" = none →
       handle_warnings hl res = (res, none)) := by
  have hwd : ("deprecations" : String) ≠ "warnings" := by decide
  cases hw : dictGet res "warnings" with
  | none =>
    have h1 : handle_warnings hl res = depBranch hl res := by
      unfold handle_warnings
      rw [hw]
    refine ⟨?_, ?_, ?_, ?_, ?_⟩
    · intro k _ _
      rw [h1, depBranch_fst]
    · rw [h1, depBranch_fst, hw]
      unfold warnKeyAfter
      rw [hw]
    · rw [h1, depBranch_fst]
    · rw [h1, depBranch_snd]
      unfold warnExnOf
      rw [hw]
      rfl
    · intro _ hdn
      rw [h1]
      unfold depBranch
      rw [hdn]
  | some v =>
    by_cases ht : truthy v = true
    · cases he : warnLoopExn hl v with
      | some e0 =>
        have h1 : handle_warnings hl res = (res, some e0) := by
          unfold handle_warnings
          rw [hw]
          simp [ht, he]
        refine ⟨?_, ?_, ?_, ?_, ?_⟩
        · intro k _ _
          rw [h1]
        · rw [h1]
          unfold warnKeyAfter
          rw [hw]
          simp [ht, he, hw]
        · rw [h1]
        · rw [h1]
          unfold warnExnOf
          rw [hw]
          simp [ht, he, optOr]
        · intro hwn _
          cases hwn
      | none =>
        have h1 : handle_warnings hl res
            = depBranch hl (dictErase res "warnings") := by
          unfold handle_warnings
          rw [hw]
          simp [ht, he]
        refine ⟨?_, ?_, ?_, ?_, ?_⟩
        · intro k hk1 hk2
          rw [h1, depBranch_fst, dictGet_erase_ne _ _ _ hk1]
        · rw [h1, depBranch_fst, dictGet_erase_eq]
          unfold warnKeyAfter
          rw [hw]
          simp [ht, he]
        · rw [h1, depBranch_fst, dictGet_erase_ne _ _ _ hwd]
        · rw [h1, depBranch_snd, depExnOf_erase_warnings]
          unfold warnExnOf
          rw [hw]
          simp [ht, he, optOr]
        · intro hwn _
          cases hwn
    · have h1 : handle_warnings hl res = depBranch hl res := by
        unfold handle_warnings
        rw [hw]
        simp [ht]
      refine ⟨?_, ?_, ?_, ?_, ?_⟩
      · intro k _ _
        rw [h1, depBranch_fst]
      · rw [h1, depBranch_fst, hw]
        unfold warnKeyAfter
        rw [hw]
        simp [ht]
      · rw [h1, depBranch_fst]
      · rw [h1, depBranch_snd]
        unfold warnExnOf
        rw [hw]
        simp [ht, optOr]
      · intro hwn _
        cases hwn

theorem C9_handle_warnings_frame_witness :
    dictGet ((handle_warnings true
        [("warnings", PyVal.pyList [PyVal.pyStr "w"]),
         ("rc", PyVal.pyInt 0)]).1) "rc" = some (PyVal.pyInt 0) ∧
    dictGet ((handle_warnings true
        [("warnings", PyVal.pyList [PyVal.pyStr "w"]),
         ("rc", PyVal.pyInt 0)]).1) "warnings" = none ∧
    handle_warnings true [("rc", PyVal.pyInt 0)]
      = ([("rc", PyVal.pyInt 0)], none) :=
  ⟨(C9_handle_warnings_frame true
      [("warnings", PyVal.pyList [PyVal.pyStr "w"]),
       ("rc", PyVal.pyInt 0)]).1 "rc" (by decide) (by decide),
   ((C9_handle_warnings_frame true
      [("warnings", PyVal.pyList [PyVal.pyStr "w"]),
       ("rc", PyVal.pyInt 0)]).2.1).trans rfl,
   (C9_handle_warnings_frame true [("rc", PyVal.pyInt 0)]).2.2.2.2 rfl rfl⟩

/-- C10: `playbook_on_task_start` records the task name and changes
nothing else — all four counters, the successes and failures maps are
untouched and the notification callback is not invoked even when one
was supplied. -/
theorem C10_task_start_frame (hc hl : Bool) (s : Stats) (name : String) :
    ((ResultCallback.handle hc hl s (.taskStart name)).1).task_name = name ∧
    ((ResultCallback.handle hc hl s (.taskStart name)).1).success = s.success ∧
    ((ResultCallback.handle hc hl s (.taskStart name)).1).failed = s.failed ∧
    ((ResultCallback.handle hc hl s (.taskStart name)).1).skipped = s.skipped ∧
    ((ResultCallback.handle hc hl s (.taskStart name)).1).unreachable
      = s.unreachable ∧
    ((ResultCallback.handle hc hl s (.taskStart name)).1).successes
      = s.successes ∧
    ((ResultCallback.handle hc hl s (.taskStart name)).1).failures
      = s.failures ∧
    (ResultCallback.handle hc hl s (.taskStart name)).2 = [] :=
  ⟨rfl, rfl, rfl, rfl, rfl, rfl, rfl, rfl⟩

/-! ### `bytes2human` (`utils/utils.py`)

Python floats are modelled as exact rationals; `round(x, p)` is Python's
round-half-to-even carried out at `p` decimal places. -/

/-- Round half to even, on an exact rational. -/
def rhe (q : ℚ) : ℤ :=
  if q - Int.floor q < 1/2 then Int.floor q
  else if (1:ℚ)/2 < q - Int.floor q then Int.floor q + 1
  else if Int.floor q % 2 = 0 then Int.floor q else Int.floor q + 1

/-- The five size suffixes scanned by `bytes2human`, in order. -/
def suffixes : List Char := ['K', 'M', 'G', 'T', 'P']

/-- The `rounding` table of `bytes2human`: decimal places per suffix. -/
def roundingTbl : List (Char × ℕ) :=
  [('K', 0), ('M', 0), ('G', 0), ('T', 0), ('P', 1)]

/-- `rounding[char1]`; the default is never reached because the key is
always one of the five suffixes. -/
def rounding (c : Char) : ℕ := (dictGet roundingTbl c).getD 0

/-- `'{0:.pf}'.format(v)` for a non-negative value `v = m / 10 ^ p` that
already has exactly `p` (0 or 1) decimal places. -/
def fmtFixed (p : ℕ) (m : ℤ) : String :=
  if p = 0 then toString m else toString (m / 10) ++ "." ++ toString (m % 10)

/-- The scan loop of `bytes2human`: divide by 1024 once per suffix, stop
at the first suffix for which the scaled size is below 1024 (or which is
the forced target unit). -/
def b2hAux (target : Option Char) : List Char → ℚ → Except String String
  | [], _ => .error "number too large"
  | sfx :: rest, size =>
    if size / 1024 < 1024 ∨ target = some sfx then
      .ok (fmtFixed (rounding sfx)
             (rhe (size / 1024 * 10 ^ rounding sfx)) ++ sfx.toString)
    else b2hAux target rest (size / 1024)

/-- `bytes2human`: convert a byte count into a human-readable string.
A negative count and a magnitude past the `P` suffix both raise
`ValueError`. -/
def bytes2human (in_bytes : ℤ) (target_unit : Option Char) : Except String String :=
  if (in_bytes : ℚ) < 0 then .error "number must be non-negative"
  else b2hAux target_unit suffixes (in_bytes : ℚ)

theorem div_pow_succ (b : ℚ) (i : ℕ) :
    b / 1024 ^ i / 1024 = b / 1024 ^ (i + 1) := by
  rw [div_div, pow_succ]

/-- C4 counterexample: `bytes2human(1024)` with no target unit returns
`"1K"`, not `"1M"` as the claim states (1024 bytes is one kibibyte; the
loop stops at the first suffix already). -/
theorem C4_counterexample : bytes2human 1024 none ≠ .ok "1M" := by
  simp [bytes2human, b2hAux, suffixes, rounding, roundingTbl, dictGet, fmtFixed, rhe]
  norm_num [Int.floor_eq_iff]
  decide

/-- C4 (amended): `bytes2human(1024)` with no target unit returns the
string `"1K"`. -/
theorem C4_bytes2human_1024 : bytes2human 1024 none = .ok "1K" := by
  simp [bytes2human, b2hAux, suffixes, rounding, roundingTbl, dictGet, fmtFixed, rhe]
  norm_num [Int.floor_eq_iff]
  rfl

/-! ### `expand_hosts` (`utils/utils.py`)

Python strings are modelled as `List Char` here because the function
slices at character level.  `str.split`, `str.index`, `int(...)`,
`str(...)` and `range(...)` get their own faithful models. -/

/-- `s.split(sep)` for a one-character separator: always returns at
least one (possibly empty) piece. -/
def splitOnChar (sep : Char) : List Char → List (List Char)
  | [] => [[]]
  | c :: rest =>
    let r := splitOnChar sep rest
    if c = sep then [] :: r
    else
      match r with
      | [] => [[c]]
      | l :: ls => (c :: l) :: ls

/-- `s.index(c)`: position of the first occurrence, `none` when absent
(the source only calls it after an `in` check). -/
def idxOf (c : Char) : List Char → Option ℕ
  | [] => none
  | x :: rest => if x = c then some 0 else (idxOf c rest).map (· + 1)

/-- One decimal digit character. -/
def digitChar : ℕ → Char
  | 0 => '0'
  | 1 => '1'
  | 2 => '2'
  | 3 => '3'
  | 4 => '4'
  | 5 => '5'
  | 6 => '6'
  | 7 => '7'
  | 8 => '8'
  | 9 => '9'
  | _ => '?'

/-- The numeric value of a decimal digit character, if it is one. -/
def digitVal (c : Char) : Option ℕ :=
  if c = '0' then some 0 else if c = '1' then some 1
  else if c = '2' then some 2 else if c = '3' then some 3
  else if c = '4' then some 4 else if c = '5' then some 5
  else if c = '6' then some 6 else if c = '7' then some 7
  else if c = '8' then some 8 else if c = '9' then some 9
  else none

/-- Decimal digits of `n`, most significant first (the model of Python
`str(n)` for a non-negative `n`); `fuel` bounds the recursion and any
`fuel > n` gives the same result. -/
def natCharsAux : ℕ → ℕ → List Char
  | 0, _ => []
  | fuel + 1, n =>
    if n < 10 then [digitChar n]
    else natCharsAux fuel (n / 10) ++ [digitChar (n % 10)]

/-- `str(n)` for a natural number. -/
def natChars (n : ℕ) : List Char := natCharsAux (n + 1) n

/-- Left fold of a digit run (the accumulator of `int(...)`). -/
def pyNatAux (acc : ℕ) : List Char → Option ℕ
  | [] => some acc
  | c :: rest =>
    match digitVal c with
    | some d => pyNatAux (acc * 10 + d) rest
    | none => none

/-- A non-empty all-digit run parsed as a natural number. -/
def pyNat (s : List Char) : Option ℕ :=
  if s.isEmpty then none else pyNatAux 0 s

/-- Strip leading and trailing spaces (`int(...)` tolerates them). -/
def pyStrip (s : List Char) : List Char :=
  ((s.dropWhile (fun c => c = ' ')).reverse.dropWhile (fun c => c = ' ')).reverse

/-- Python `int(text)`: optional surrounding spaces, optional sign,
then a non-empty run of decimal digits; `none` models `ValueError`. -/
def pyIntOf (s : List Char) : Option ℤ :=
  match pyStrip s with
  | [] => none
  | c :: rest =>
    if c = '-' then (pyNat rest).map (fun n => -(n : ℤ))
    else if c = '+' then (pyNat rest).map (fun n => (n : ℤ))
    else (pyNat (c :: rest)).map (fun n => (n : ℤ))

/-- Python `str(n)` for an integer. -/
def pyStr (n : ℤ) : List Char :=
  if n < 0 then '-' :: natChars (-n).toNat else natChars n.toNat

/-- Python `range(a, b)` (step 1). -/
def pyRange (a b : ℤ) : List ℤ :=
  (List.range (b - a).toNat).map (fun i : ℕ => a + (i : ℤ))

/-- One line of `expand_hosts`: if the line contains `[`, slice out the
bracketed `start-end` range and emit `prefix + str(n)` for each `n` of
`range(start, end + 1)`; otherwise the non-empty line itself.  `none`
models the `ValueError`/`IndexError` the source raises on a malformed
range. -/
def expandLine (hostname : List Char) : Option (List (List Char)) :=
  match idxOf '[' hostname with
  | some brkt_pos =>
    let pfx := hostname.take brkt_pos
    let inner := (hostname.drop (brkt_pos + 1)).dropLast
    match splitOnChar '-' inner with
    | s0 :: s1 :: _ =>
      match pyIntOf s0, pyIntOf s1 with
      | some a, some b =>
        some ((pyRange a (b + 1)).map (fun n => pfx ++ pyStr n))
      | _, _ => none
    | _ => none
  | none => if hostname.isEmpty then some [] else some [hostname]

/-- The per-line loop of `expand_hosts`, concatenating expansions. -/
def expandLines : List (List Char) → Option (List (List Char))
  | [] => some []
  | line :: rest =>
    match expandLine line, expandLines rest with
    | some hs, some tl => some (hs ++ tl)
    | _, _ => none

/-- `expand_hosts(host_text)`: split on newlines, expand each line. -/
def expand_hosts (host_text : List Char) : Option (List (List Char)) :=
  expandLines (splitOnChar '\n' host_text)

theorem idxOf_not_mem (c : Char) (l : List Char) (h : c ∉ l) :
    idxOf c l = none := by
  induction l with
  | nil => rfl
  | cons x rest ih =>
    rw [List.mem_cons, not_or] at h
    obtain ⟨h1, h2⟩ := h
    have hx : ¬ x = c := fun he => h1 he.symm
    simp [idxOf, hx, ih h2]

theorem idxOf_append (c : Char) (l1 l2 : List Char) (h : c ∉ l1) :
    idxOf c (l1 ++ c :: l2) = some l1.length := by
  induction l1 with
  | nil => simp [idxOf]
  | cons x rest ih =>
    rw [List.mem_cons, not_or] at h
    obtain ⟨h1, h2⟩ := h
    have hx : ¬ x = c := fun he => h1 he.symm
    simp [idxOf, hx, ih h2]

theorem splitOnChar_not_mem (sep : Char) (l : List Char) (h : sep ∉ l) :
    splitOnChar sep l = [l] := by
  induction l with
  | nil => rfl
  | cons c rest ih =>
    rw [List.mem_cons, not_or] at h
    obtain ⟨h1, h2⟩ := h
    have hc : ¬ c = sep := fun he => h1 he.symm
    simp [splitOnChar, hc, ih h2]

theorem splitOnChar_append (sep : Char) (l1 l2 : List Char) (h : sep ∉ l1) :
    splitOnChar sep (l1 ++ sep :: l2) = l1 :: splitOnChar sep l2 := by
  induction l1 with
  | nil => simp [splitOnChar]
  | cons c rest ih =>
    rw [List.mem_cons, not_or] at h
    obtain ⟨h1, h2⟩ := h
    have hc : ¬ c = sep := fun he => h1 he.symm
    simp only [List.cons_append, splitOnChar, hc, if_false, List.append_eq]
    rw [ih h2]

theorem take_append_len {α : Type} (l1 l2 : List α) :
    (l1 ++ l2).take l1.length = l1 := by
  induction l1 with
  | nil => rfl
  | cons x rest ih => simp [ih]

theorem drop_append_len {α : Type} (l1 l2 : List α) :
    (l1 ++ l2).drop l1.length = l2 := by
  induction l1 with
  | nil => rfl
  | cons x rest ih => simp [ih]

theorem digitVal_digitChar (d : ℕ) (h : d < 10) :
    digitVal (digitChar d) = some d := by
  interval_cases d <;> rfl

theorem natCharsAux_digits :
    ∀ (fuel n : ℕ), n < fuel → ∀ c ∈ natCharsAux fuel n,
      ∃ d, d < 10 ∧ c = digitChar d := by
  intro fuel
  induction fuel with
  | zero => intro n h; omega
  | succ f ih =>
    intro n h c hc
    by_cases h10 : n < 10
    · simp [natCharsAux, h10] at hc
      exact ⟨n, h10, hc⟩
    · simp only [natCharsAux, h10, if_false, List.mem_append,
        List.mem_singleton] at hc
      rcases hc with hc | hc
      · exact ih (n / 10) (by omega) c hc
      · exact ⟨n % 10, by omega, hc⟩

theorem natCharsAux_ne_nil (fuel n : ℕ) (h : n < fuel) :
    natCharsAux fuel n ≠ [] := by
  cases fuel with
  | zero => omega
  | succ f =>
    by_cases h10 : n < 10 <;> simp [natCharsAux, h10]

theorem pyNatAux_append (l1 l2 : List Char) :
    ∀ acc, pyNatAux acc (l1 ++ l2) =
      (match pyNatAux acc l1 with
       | some m => pyNatAux m l2
       | none => none) := by
  induction l1 with
  | nil => intro acc; simp [pyNatAux]
  | cons c rest ih =>
    intro acc
    simp only [List.cons_append, pyNatAux]
    cases digitVal c with
    | none => simp
    | some d => simp [ih]

theorem pyNatAux_natCharsAux :
    ∀ (fuel n acc : ℕ), n < fuel →
      pyNatAux acc (natCharsAux fuel n) =
        some (acc * 10 ^ (natCharsAux fuel n).length + n) := by
  intro fuel
  induction fuel with
  | zero => intro n acc h; omega
  | succ f ih =>
    intro n acc h
    by_cases h10 : n < 10
    · simp [natCharsAux, h10, pyNatAux, digitVal_digitChar n h10]
    · have hd : n / 10 < f := by omega
      rw [show natCharsAux (f + 1) n
          = natCharsAux f (n / 10) ++ [digitChar (n % 10)] from by
        simp [natCharsAux, h10]]
      rw [pyNatAux_append, ih (n / 10) acc hd]
      simp only [pyNatAux, digitVal_digitChar (n % 10) (by omega)]
      have harith : (acc * 10 ^ (natCharsAux f (n / 10)).length + n / 10) * 10
          + n % 10
          = acc * 10 ^ ((natCharsAux f (n / 10)).length + 1) + n := by
        calc (acc * 10 ^ (natCharsAux f (n / 10)).length + n / 10) * 10 + n % 10
            = acc * (10 ^ (natCharsAux f (n / 10)).length * 10)
              + (10 * (n / 10) + n % 10) := by ring
          _ = acc * 10 ^ ((natCharsAux f (n / 10)).length + 1) + n := by
              rw [Nat.div_add_mod n 10, pow_succ]
      simp [harith]

theorem natChars_digits (n : ℕ) :
    ∀ c ∈ natChars n, ∃ d, d < 10 ∧ c = digitChar d :=
  natCharsAux_digits (n + 1) n (Nat.lt_succ_self n)

theorem natChars_ne_nil (n : ℕ) : natChars n ≠ [] :=
  natCharsAux_ne_nil (n + 1) n (Nat.lt_succ_self n)

theorem pyNatAux_natChars (n : ℕ) : pyNatAux 0 (natChars n) = some n := by
  have h := pyNatAux_natCharsAux (n + 1) n 0 (Nat.lt_succ_self n)
  simpa using h

theorem digitChar_ne (d : ℕ) (h : d < 10) :
    digitChar d ≠ '-' ∧ digitChar d ≠ '+' ∧ digitChar d ≠ ' ' ∧
      digitChar d ≠ '[' ∧ digitChar d ≠ ']' ∧ digitChar d ≠ '\n' := by
  interval_cases d <;> exact ⟨by decide, by decide, by decide, by decide,
    by decide, by decide⟩

theorem natChars_not_mem_special (n : ℕ) :
    '-' ∉ natChars n ∧ '+' ∉ natChars n ∧ ' ' ∉ natChars n ∧
      '[' ∉ natChars n := by
  refine ⟨fun hm => ?_, fun hm => ?_, fun hm => ?_, fun hm => ?_⟩
  · obtain ⟨d, hd, he⟩ := natChars_digits n _ hm
    exact (digitChar_ne d hd).1 he.symm
  · obtain ⟨d, hd, he⟩ := natChars_digits n _ hm
    exact (digitChar_ne d hd).2.1 he.symm
  · obtain ⟨d, hd, he⟩ := natChars_digits n _ hm
    exact (digitChar_ne d hd).2.2.1 he.symm
  · obtain ⟨d, hd, he⟩ := natChars_digits n _ hm
    exact (digitChar_ne d hd).2.2.2.1 he.symm

theorem dropWhile_space_id (l : List Char) (h : ∀ c ∈ l, ¬ c = ' ') :
    l.dropWhile (fun c => c = ' ') = l := by
  cases l with
  | nil => rfl
  | cons c rest =>
    have hc : ¬ c = ' ' := h c (List.mem_cons_self c rest)
    simp [List.dropWhile_cons, hc]

theorem pyStrip_id (l : List Char) (h : ∀ c ∈ l, ¬ c = ' ') :
    pyStrip l = l := by
  unfold pyStrip
  rw [dropWhile_space_id l h,
    dropWhile_space_id l.reverse (fun c hc => h c (List.mem_reverse.mp hc)),
    List.reverse_reverse]

theorem pyIntOf_natChars (n : ℕ) : pyIntOf (natChars n) = some (n : ℤ) := by
  have hdig := natChars_digits n
  have hsp : ∀ c ∈ natChars n, ¬ c = ' ' := by
    intro c hc
    obtain ⟨d, hd, he⟩ := hdig c hc
    have := digitChar_ne d hd
    simp_all
  cases hn : natChars n with
  | nil => exact absurd hn (natChars_ne_nil n)
  | cons c rest =>
    have hc : c ∈ natChars n := by rw [hn]; exact List.mem_cons_self c rest
    obtain ⟨d, hd, he⟩ := hdig c hc
    have hne := digitChar_ne d hd
    have h1 : ¬ c = '-' := by rw [he]; exact hne.1
    have h2 : ¬ c = '+' := by rw [he]; exact hne.2.1
    have hsp2 : ∀ x ∈ c :: rest, ¬ x = ' ' := by rw [← hn]; exact hsp
    have hpn : pyNat (c :: rest) = some n := by
      unfold pyNat
      rw [← hn, pyNatAux_natChars n]
      simp [hn]
    unfold pyIntOf
    rw [pyStrip_id _ hsp2]
    simp only [if_neg h1, if_neg h2, hpn, Option.map_some]
    rfl

theorem pyStr_nat (m : ℕ) : pyStr (m : ℤ) = natChars m := by
  unfold pyStr
  rw [if_neg (not_lt.mpr (Int.natCast_nonneg m))]
  have h : ((m : ℤ)).toNat = m := by omega
  rw [h]

theorem pyRange_map_natChars (pfx : List Char) (a b : ℕ) :
    (pyRange (a : ℤ) ((b : ℤ) + 1)).map (fun n => pfx ++ pyStr n) =
      (List.range' a (b + 1 - a)).map (fun k => pfx ++ natChars k) := by
  unfold pyRange
  have hcnt : ((b : ℤ) + 1 - (a : ℤ)).toNat = b + 1 - a := by omega
  rw [hcnt, List.range'_eq_map_range, List.map_map, List.map_map]
  have hfg : ((fun n => pfx ++ pyStr n) ∘ fun i : ℕ => (a : ℤ) + (i : ℤ))
      = ((fun k => pfx ++ natChars k) ∘ fun x : ℕ => a + x) := by
    funext i
    simp only [Function.comp_apply]
    rw [show ((a : ℤ) + (i : ℤ)) = ((a + i : ℕ) : ℤ) from by push_cast; ring,
      pyStr_nat]
  rw [hfg]

theorem expandLine_range (pfx : List Char) (a b : ℕ) (hp : '[' ∉ pfx) :
    expandLine (pfx ++ '[' :: ((natChars a ++ '-' :: natChars b) ++ [']']))
      = some ((List.range' a (b + 1 - a)).map (fun k => pfx ++ natChars k)) := by
  have hidx := idxOf_append '[' pfx ((natChars a ++ '-' :: natChars b) ++ [']']) hp
  have htake := take_append_len pfx ('[' :: ((natChars a ++ '-' :: natChars b) ++ [']']))
  have hdrop : (pfx ++ '[' :: ((natChars a ++ '-' :: natChars b) ++ [']'])).drop
      (pfx.length + 1) = (natChars a ++ '-' :: natChars b) ++ [']'] := by
    rw [show pfx ++ '[' :: ((natChars a ++ '-' :: natChars b) ++ [']'])
        = (pfx ++ ['[']) ++ ((natChars a ++ '-' :: natChars b) ++ [']']) from by simp,
      show pfx.length + 1 = (pfx ++ ['[']).length from by simp]
    exact drop_append_len _ _
  have hdl : ((natChars a ++ '-' :: natChars b) ++ [']']).dropLast
      = natChars a ++ '-' :: natChars b := by
    rw [List.dropLast_concat]
  have hsplit : splitOnChar '-' (natChars a ++ '-' :: natChars b)
      = [natChars a, natChars b] := by
    rw [splitOnChar_append '-' _ _ (natChars_not_mem_special a).1,
      splitOnChar_not_mem '-' _ (natChars_not_mem_special b).1]
  unfold expandLine
  rw [hidx]
  simp only [htake, hdrop, hdl, hsplit, pyIntOf_natChars]
  rw [pyRange_map_natChars]

/-- C5: `expand_hosts` splits its input on newlines; a line of the form
`prefix[start-end]` (decimal `start`, `end`) expands to
`prefix + str(n)` for every `n` from `start` to `end` inclusive, in
ascending order; a plain non-empty bracket-free line yields itself;  an
empty line yields nothing; and the two concrete examples of the spec
hold. -/
theorem C5_expand_hosts_spec :
    (∀ text, expand_hosts text = expandLines (splitOnChar '\n' text)) ∧
    (∀ (pfx : List Char) (a b : ℕ), '[' ∉ pfx →
      expandLine (pfx ++ '[' :: ((natChars a ++ '-' :: natChars b) ++ [']']))
        = some ((List.range' a (b + 1 - a)).map (fun k => pfx ++ natChars k))) ∧
    (∀ line : List Char, line ≠ [] → '[' ∉ line → expandLine line = some [line]) ∧
    expandLine [] = some [] ∧
    expand_hosts "node[1-3]".toList
      = some ["node1".toList, "node2".toList, "node3".toList] ∧
    expand_hosts "a\nb".toList = some ["a".toList, "b".toList] := by
  refine ⟨fun text => rfl, fun pfx a b hp => expandLine_range pfx a b hp,
    ?_, rfl, by decide, by decide⟩
  intro line hne hnb
  unfold expandLine
  rw [idxOf_not_mem '[' line hnb]
  have hempty : line.isEmpty = false := by
    cases line with
    | nil => exact absurd rfl hne
    | cons c rest => rfl
  simp [hempty]

theorem C5_expand_hosts_spec_witness :
    expandLine ("node".toList ++ '[' :: ((natChars 1 ++ '-' :: natChars 3) ++ [']']))
      = some ((List.range' 1 3).map (fun k => "node".toList ++ natChars k)) ∧
    expandLine "abc".toList = some ["abc".toList] :=
  ⟨C5_expand_hosts_spec.2.1 "node".toList 1 3 (by decide),
   C5_expand_hosts_spec.2.2.1 "abc".toList (by decide) (by decide)⟩

/-! ### `setup_ansible_cfg` / `restore_ansible_cfg` (`utils/utils.py`)

The file system is modelled as a map from paths to parsed config files;
a config file is its `ConfigParser` view, a list of sections each
holding `key = value` options (`ConfigParser` round-trips are abstracted
to this parsed representation, so "byte-for-byte" restoration becomes
equality of the stored content). -/

/-- A parsed `section / key = value` configuration file. -/
abbrev Cfg := List (String × List (String × String))

/-- The file system: a map from paths to (parsed) file contents. -/
abbrev PyFS := List (String × Cfg)

/-- `ConfigParser` errors distinguished by the source. -/
inductive CPErr where
  | noSection : CPErr
  | noOption : CPErr
deriving DecidableEq

/-- Exceptions `setup_ansible_cfg` can surface. -/
inductive PyErr where
  | environmentError : PyErr
  | noSectionError : PyErr
deriving DecidableEq

def fsRead (fs : PyFS) (p : String) : Option Cfg := dictGet fs p

def fsWrite (fs : PyFS) (p : String) (c : Cfg) : PyFS := dictSet fs p c

def fsRemove (fs : PyFS) (p : String) : PyFS := dictErase fs p

/-- `os.path.join(ceph_ansible_dir, 'ansible.cfg')`. -/
def cfgPath (dir : String) : String := dir ++ "/ansible.cfg"

/-- `'{}_bak'.format(ansible_cfg)`. -/
def bakPath (dir : String) : String := cfgPath dir ++ "_bak"

/-- `ConfigParser.get`: `NoSectionError` when the section is absent,
`NoOptionError` when the option is. -/
def cfgGet (cfg : Cfg) (sect opt : String) : Except CPErr String :=
  match dictGet cfg sect with
  | none => .error .noSection
  | some opts =>
    match dictGet opts opt with
    | none => .error .noOption
    | some v => .ok v

/-- `ConfigParser.set`: fails when the section is absent. -/
def cfgSet (cfg : Cfg) (sect opt v : String) : Except CPErr Cfg :=
  match dictGet cfg sect with
  | none => .error .noSection
  | some opts => .ok (dictSet cfg sect (dictSet opts opt v))

/-- `setup_ansible_cfg`: raise an environment error when the config file
is missing; ensure `defaults / deprecation_warnings = False` (the single
entry of `cfg_changes`); back the original up to the `_bak` sibling when
a change was needed; always rewrite the config file. -/
def setup_ansible_cfg (ceph_ansible_dir : String) (fs : PyFS) :
    Except PyErr PyFS :=
  match fsRead fs (cfgPath ceph_ansible_dir) with
  | none => .error .environmentError
  | some cfg0 =>
    match cfgGet cfg0 "defaults" "deprecation_warnings" with
    | .error .noSection => .error .noSectionError
    | .error .noOption =>
      match cfgSet cfg0 "defaults" "deprecation_warnings" "False" with
      | .error _ => .error .noSectionError
      | .ok cfg1 =>
        .ok (fsWrite (fsWrite fs (bakPath ceph_ansible_dir) cfg0)
              (cfgPath ceph_ansible_dir) cfg1)
    | .ok v =>
      if v ≠ "False" then
        match cfgSet cfg0 "defaults" "deprecation_warnings" "False" with
        | .error _ => .error .noSectionError
        | .ok cfg1 =>
          .ok (fsWrite (fsWrite fs (bakPath ceph_ansible_dir) cfg0)
                (cfgPath ceph_ansible_dir) cfg1)
      else
        .ok (fsWrite fs (cfgPath ceph_ansible_dir) cfg0)

/-- `restore_ansible_cfg`: when the backup exists, copy it back over the
config file and delete it; otherwise do nothing. -/
def restore_ansible_cfg (ceph_ansible_dir : String) (fs : PyFS) : PyFS :=
  match fsRead fs (bakPath ceph_ansible_dir) with
  | none => fs
  | some c =>
    fsRemove (fsWrite fs (cfgPath ceph_ansible_dir) c)
      (bakPath ceph_ansible_dir)

theorem paths_ne (dir : String) : cfgPath dir ≠ bakPath dir := by
  intro h
  have hlen := congrArg String.length h
  rw [bakPath, String.length_append] at hlen
  have : ("_bak" : String).length = 4 := rfl
  omega

/-- What C6 requires of the state after a successful `setup_ansible_cfg`
that made a change: the backup holds the original, the config file holds
the patched content, and a subsequent restore brings the original back
and deletes the backup. -/
def SetupOutcome (dir : String) (cfg0 : Cfg) (fs1 : PyFS) (cfg1 : Cfg) : Prop :=
  fsRead fs1 (bakPath dir) = some cfg0 ∧
  fsRead fs1 (cfgPath dir) = some cfg1 ∧
  cfgGet cfg1 "defaults" "deprecation_warnings" = .ok "False" ∧
  fsRead (restore_ansible_cfg dir fs1) (cfgPath dir) = some cfg0 ∧
  fsRead (restore_ansible_cfg dir fs1) (bakPath dir) = none

theorem cfgGet_ne_noSection (cfg : Cfg) (sect opt : String)
    (opts : List (String × String)) (h : dictGet cfg sect = some opts) :
    cfgGet cfg sect opt ≠ .error .noSection := by
  unfold cfgGet
  rw [h]
  cases hg : dictGet opts opt <;> simp [hg]

theorem cfgSet_section (cfg : Cfg) (sect opt v : String)
    (opts : List (String × String)) (h : dictGet cfg sect = some opts) :
    cfgSet cfg sect opt v = .ok (dictSet cfg sect (dictSet opts opt v)) := by
  unfold cfgSet
  rw [h]

theorem setup_outcome_write (dir : String) (fs : PyFS) (cfg0 : Cfg)
    (opts : List (String × String)) (_hsect : dictGet cfg0 "defaults" = some opts) :
    SetupOutcome dir cfg0
      (fsWrite (fsWrite fs (bakPath dir) cfg0) (cfgPath dir)
        (dictSet cfg0 "defaults" (dictSet opts "deprecation_warnings" "False")))
      (dictSet cfg0 "defaults" (dictSet opts "deprecation_warnings" "False")) := by
  have hne : bakPath dir ≠ cfgPath dir := fun h => paths_ne dir h.symm
  have h1 : fsRead (fsWrite (fsWrite fs (bakPath dir) cfg0) (cfgPath dir)
      (dictSet cfg0 "defaults" (dictSet opts "deprecation_warnings" "False")))
      (bakPath dir) = some cfg0 := by
    unfold fsRead fsWrite
    rw [dictGet_set_ne _ _ _ _ hne, dictGet_set_eq]
  refine ⟨h1, ?_, ?_, ?_, ?_⟩
  · unfold fsRead fsWrite
    rw [dictGet_set_eq]
  · unfold cfgGet
    simp only [dictGet_set_eq]
  · unfold restore_ansible_cfg
    rw [h1]
    unfold fsRead fsWrite fsRemove
    rw [dictGet_erase_ne _ _ _ (paths_ne dir), dictGet_set_eq]
  · unfold restore_ansible_cfg
    rw [h1]
    unfold fsRead fsRemove
    rw [dictGet_erase_eq]

/-- C6: for an existing config file whose `defaults` section is present
but does not carry `deprecation_warnings = False`, `setup_ansible_cfg`
backs the original up to the `_bak` sibling and writes the patched file;
a subsequent `restore_ansible_cfg` restores the original content and
deletes the backup.  `setup_ansible_cfg` raises an environment error
when the config file is absent, and `restore_ansible_cfg` is a no-op
when no backup exists. -/
theorem C6_cfg_roundtrip :
    (∀ (dir : String) (fs : PyFS) (cfg0 : Cfg) (opts : List (String × String)),
      fsRead fs (cfgPath dir) = some cfg0 →
      dictGet cfg0 "defaults" = some opts →
      cfgGet cfg0 "defaults" "deprecation_warnings" ≠ .ok "False" →
      ∃ (fs1 : PyFS) (cfg1 : Cfg),
        setup_ansible_cfg dir fs = .ok fs1 ∧ SetupOutcome dir cfg0 fs1 cfg1) ∧
    (∀ (dir : String) (fs : PyFS), fsRead fs (cfgPath dir) = none →
      setup_ansible_cfg dir fs = .error .environmentError) ∧
    (∀ (dir : String) (fs : PyFS), fsRead fs (bakPath dir) = none →
      restore_ansible_cfg dir fs = fs) := by
  refine ⟨?_, ?_, ?_⟩
  · intro dir fs cfg0 opts hread hsect hneq
    have hset := cfgSet_section cfg0 "defaults" "deprecation_warnings" "False"
      opts hsect
    cases hg : cfgGet cfg0 "defaults" "deprecation_warnings" with
    | error e =>
      cases e with
      | noSection =>
        exact absurd hg (cfgGet_ne_noSection cfg0 _ _ opts hsect)
      | noOption =>
        refine ⟨_, _, ?_, setup_outcome_write dir fs cfg0 opts hsect⟩
        simp only [setup_ansible_cfg, hread, hg, hset]
    | ok v =>
      have hv : v ≠ "False" := fun he => hneq (by rw [hg, he])
      refine ⟨_, _, ?_, setup_outcome_write dir fs cfg0 opts hsect⟩
      simp only [setup_ansible_cfg, hread, hg, hset]
      rw [if_pos hv]
  · intro dir fs h
    simp only [setup_ansible_cfg, h]
  · intro dir fs h
    simp only [restore_ansible_cfg, h]

theorem C6_cfg_roundtrip_witness :
    (∃ (fs1 : PyFS) (cfg1 : Cfg),
      setup_ansible_cfg "d" [("d/ansible.cfg", [("defaults", [])])] = .ok fs1 ∧
      SetupOutcome "d" [("defaults", [])] fs1 cfg1) ∧
    setup_ansible_cfg "d" [] = .error .environmentError ∧
    restore_ansible_cfg "d" [("d/ansible.cfg", [("defaults", [])])] =
      [("d/ansible.cfg", [("defaults", [])])] :=
  ⟨C6_cfg_roundtrip.1 "d" [("d/ansible.cfg", [("defaults", [])])]
      [("defaults", [])] [] (by decide) (by decide)
      (by intro h; exact Except.noConfusion h),
   C6_cfg_roundtrip.2.1 "d" [] (by decide),
   C6_cfg_roundtrip.2.2 "d" [("d/ansible.cfg", [("defaults", [])])] (by decide)⟩

/-! ### `DynamicPlaybook.setup` (`ansible/playbook.py`)

The synthetic play dictionary (`play_src`) is captured as a record; the
later `Play().load` call belongs to the external engine and is outside
the claim. -/

/-- The `play_src` dictionary built by `DynamicPlaybook.setup`. -/
structure PlaySrc where
  name : String
  hosts : String
  gather_facts : String
  tasks : List PyVal

/-- `DynamicPlaybook.setup(pb_name, pb_tasks)`: raise
`CoPilotPlaybookError` when `not pb_tasks or not isinstance(pb_tasks,
list)`, otherwise build the synthetic play. -/
def DynamicPlaybook.setup (pb_name : String) (pb_tasks : PyVal) :
    Except String PlaySrc :=
  if truthy pb_tasks = false ∨ isList pb_tasks = false then
    .error "Dynamic Playbook created with missing/invalid tasks"
  else
    .ok { name := pb_name, hosts := "all", gather_facts := "no",
          tasks := getList pb_tasks }

/-- C7 counterexample: an *empty* task list is present and is a
sequence, yet `DynamicPlaybook.setup` raises the configuration error
(`not pb_tasks` is true for `[]`), contradicting the claim's "exactly
when task_list is absent or not a sequence". -/
theorem C7_empty_list_raises :
    DynamicPlaybook.setup "Dynamic playbook" (PyVal.pyList []) =
      .error "Dynamic Playbook created with missing/invalid tasks" := rfl

/-- C7 (amended): `DynamicPlaybook.setup` raises the configuration
error exactly when the task list is falsy (absent, or any empty value —
in particular the empty list) or not a list; otherwise it returns the
synthetic play targeting "all" hosts with fact-gathering disabled, the
given task list and the given display name. -/
theorem C7_setup_spec (pb_name : String) (pb_tasks : PyVal) :
    (DynamicPlaybook.setup pb_name pb_tasks
        = .error "Dynamic Playbook created with missing/invalid tasks"
      ↔ (truthy pb_tasks = false ∨ isList pb_tasks = false)) ∧
    (∀ ts, pb_tasks = PyVal.pyList ts → ts ≠ [] →
      DynamicPlaybook.setup pb_name pb_tasks
        = .ok { name := pb_name, hosts := "all", gather_facts := "no",
                tasks := ts }) := by
  constructor
  · unfold DynamicPlaybook.setup
    split_ifs with hc
    · simp [hc]
    · simp [hc]
  · intro ts hts hne
    subst hts
    unfold DynamicPlaybook.setup
    rw [if_neg]
    · rfl
    · rintro (h1 | h2)
      · simp [truthy] at h1
        exact hne h1
      · simp [isList] at h2

theorem C7_setup_spec_witness :
    DynamicPlaybook.setup "p" (PyVal.pyList [PyVal.pyNone])
      = .ok { name := "p", hosts := "all", gather_facts := "no",
              tasks := [PyVal.pyNone] } :=
  (C7_setup_spec "p" (PyVal.pyList [PyVal.pyNone])).2 [PyVal.pyNone] rfl
    (by simp)

/-! ### `valid_yaml` (`utils/utils.py`)

`yaml.safe_load` is a third-party parser; it is represented as an
oracle mapping the joined text to an outcome (successful parse,
`ScannerError`, or any other raised exception). -/

/-- Outcome of a `yaml.safe_load` call. -/
inductive YamlOutcome (V E : Type) where
  | ok : V → YamlOutcome V E
  | scannerError : YamlOutcome V E
  | raised : E → YamlOutcome V E

/-- `'\n'.join(yml_data)`. -/
def joinNl (ls : List String) : String := String.intercalate "\n" ls

/-- `valid_yaml(yml_data)`: join the lines, parse; `ScannerError` is
caught and becomes `False`, success becomes `True`, anything else
propagates. -/
def valid_yaml {V E : Type} (safe_load : String → YamlOutcome V E)
    (yml_data : List String) : Except E Bool :=
  match safe_load (joinNl yml_data) with
  | .ok _ => .ok true
  | .scannerError => .ok false
  | .raised e => .error e

/-- C8: `valid_yaml` joins its input lines with newlines and parses the
result: it returns `False` exactly when the parse raises the
scanner-class error (so any line sequence the underlying parser rejects
with a `ScannerError` — e.g. an unterminated quoted scalar — yields
`False`), returns `True` exactly when the parse succeeds, and
propagates every other exception unchanged. -/
theorem C8_valid_yaml_spec (V E : Type) (safe_load : String → YamlOutcome V E)
    (yml_data : List String) :
    (valid_yaml safe_load yml_data = .ok false ↔
      safe_load (joinNl yml_data) = .scannerError) ∧
    (valid_yaml safe_load yml_data = .ok true ↔
      ∃ v, safe_load (joinNl yml_data) = .ok v) ∧
    (∀ e, valid_yaml safe_load yml_data = .error e ↔
      safe_load (joinNl yml_data) = .raised e) := by
  unfold valid_yaml
  cases h : safe_load (joinNl yml_data) with
  | ok v => refine ⟨by simp, by simp, by simp⟩
  | scannerError => refine ⟨by simp, by simp, by simp⟩
  | raised e => exact ⟨by simp, by simp, fun e2 => by simp⟩
